import Mathlib

/-!
Verification of the MiniApp version-reconciliation logic and the
container-generation command glue of `ern-local-cli/src/lib/publication.js`.

The central algorithm is the reconciler used by `performCodePushOtaUpdate`:

  const miniAppsToCodePush = _.unionBy(
    miniApps, referenceMiniAppsToCodePush, x => x.withoutVersion().toString())

lodash `unionBy(a, b, key)` concatenates the two arrays and keeps, for each
key, the first element that produced it (a "uniq by key" pass over `a ++ b`).
We embed `Dependency` values (scope + name + version, rendered to strings the
way `ern-util`'s `Dependency.toString` does), the key function
`x.withoutVersion().toString()`, and lodash's union, and prove the spec's
claims about the resulting reconciliation.
-/

/-- A package reference as handled by `@walmart/ern-util`'s `Dependency`:
an optional npm scope, a name, and an optional version. -/
structure Dependency where
  scope : Option String
  name : String
  version : Option String
deriving DecidableEq, Repr

/-- `Dependency.withoutVersion()`: same identity, version erased. -/
def Dependency.withoutVersion (d : Dependency) : Dependency :=
  { d with version := none }

/-- `Dependency.toString()`: `@scope/name@version`, with the scope and the
version segments present only when set. -/
def Dependency.toStr (d : Dependency) : String :=
  (match d.scope with
   | some s => "@" ++ s ++ "/" ++ d.name
   | none => d.name) ++
  (match d.version with
   | some v => "@" ++ v
   | none => "")

/-- The key used by the reconciler at publication.js:209,
`x => x.withoutVersion().toString()`. -/
def depKey (d : Dependency) : String :=
  d.withoutVersion.toStr

/-- One pass of lodash `uniqBy`, keeping the first element seen for each key;
`seen` accumulates the keys already emitted. -/
def uniqBy {α κ : Type} [DecidableEq κ] (key : α → κ) : List α → List κ → List α
  | [], _ => []
  | x :: xs, seen =>
    if key x ∈ seen then uniqBy key xs seen
    else x :: uniqBy key xs (key x :: seen)

/-- lodash `_.unionBy(a, b, key)`: unique-by-key elements of `a ++ b`,
first occurrence winning. -/
def unionBy {α κ : Type} [DecidableEq κ] (key : α → κ) (a b : List α) : List α :=
  uniqBy key (a ++ b) []

/-- The version reconciler of `performCodePushOtaUpdate`
(publication.js:208-209): `_.unionBy(miniApps, referenceMiniAppsToCodePush,
x => x.withoutVersion().toString())`. -/
def reconcile (updated reference : List Dependency) : List Dependency :=
  unionBy depKey updated reference

/-- A well-formed ReleaseSet: no two entries share an identity
(spec section 3, "within any ReleaseSet, no two entries share an identity"). -/
def WellFormedRS (l : List Dependency) : Prop :=
  (l.map depKey).Nodup

instance (l : List Dependency) : Decidable (WellFormedRS l) := by
  unfold WellFormedRS; infer_instance

/-- `r` is superseded when some entry of `updated` carries the same identity. -/
def supersededBy (updated : List Dependency) (r : Dependency) : Bool :=
  updated.any (fun u => depKey u == depKey r)

/-! ## Core lemmas about lodash's uniq-by-key pass -/

theorem uniqBy_seen_congr {α κ : Type} [DecidableEq κ] (key : α → κ) :
    ∀ (l : List α) (s t : List κ), (∀ k, k ∈ s ↔ k ∈ t) →
    uniqBy key l s = uniqBy key l t := by
  intro l
  induction l with
  | nil => intro s t _; rfl
  | cons x xs ih =>
    intro s t hst
    simp only [uniqBy]
    by_cases hx : key x ∈ s
    · rw [if_pos hx, if_pos ((hst (key x)).mp hx)]
      exact ih s t hst
    · rw [if_neg hx, if_neg (fun h => hx ((hst (key x)).mpr h))]
      refine congrArg (x :: ·) (ih _ _ ?_)
      intro k
      simp only [List.mem_cons]
      exact or_congr Iff.rfl (hst k)

theorem uniqBy_append {α κ : Type} [DecidableEq κ] (key : α → κ) :
    ∀ (l₁ l₂ : List α) (s : List κ),
    uniqBy key (l₁ ++ l₂) s = uniqBy key l₁ s ++ uniqBy key l₂ (l₁.map key ++ s) := by
  intro l₁
  induction l₁ with
  | nil => intro l₂ s; simp [uniqBy]
  | cons x xs ih =>
    intro l₂ s
    simp only [List.cons_append, uniqBy, List.map_cons, List.append_eq]
    by_cases hx : key x ∈ s
    · rw [if_pos hx, if_pos hx, ih]
      refine congrArg _ (uniqBy_seen_congr key l₂ _ _ ?_)
      intro k
      simp only [List.mem_append, List.mem_cons]
      constructor
      · tauto
      · intro h
        rcases h with h | h | h
        · subst h; exact Or.inr hx
        · exact Or.inl h
        · exact Or.inr h
    · rw [if_neg hx, if_neg hx, ih]
      simp only [List.cons_append]
      refine congrArg (x :: ·) (congrArg _ (uniqBy_seen_congr key l₂ _ _ ?_))
      intro k
      simp only [List.mem_append, List.mem_cons]
      tauto

theorem uniqBy_of_nodup {α κ : Type} [DecidableEq κ] (key : α → κ) :
    ∀ (l : List α) (s : List κ), (l.map key).Nodup →
    uniqBy key l s = l.filter (fun x => decide (key x ∉ s)) := by
  intro l
  induction l with
  | nil => intro s _; rfl
  | cons x xs ih =>
    intro s hnd
    simp only [List.map_cons, List.nodup_cons] at hnd
    obtain ⟨hx_notin, hnd_xs⟩ := hnd
    simp only [uniqBy, List.filter_cons]
    by_cases hx : key x ∈ s
    · rw [if_pos hx, ih s hnd_xs]
      have hdec : (decide (key x ∉ s)) = false := by simp [hx]
      rw [hdec]
      simp
    · rw [if_neg hx, ih (key x :: s) hnd_xs]
      have hdec : (decide (key x ∉ s)) = true := by simp [hx]
      rw [hdec, if_pos rfl]
      refine congrArg (x :: ·) (List.filter_congr ?_)
      intro y hy
      have hkey : key y ≠ key x := by
        intro h
        exact hx_notin (h ▸ List.mem_map_of_mem key hy)
      simp [List.mem_cons, hkey]

/-- Characterization of the reconciler on well-formed ReleaseSets: `updated`
entries first, in order, then the non-superseded `reference` entries, in
order. -/
theorem reconcile_eq (U R : List Dependency)
    (hU : WellFormedRS U) (hR : WellFormedRS R) :
    reconcile U R = U ++ R.filter (fun r => !(supersededBy U r)) := by
  unfold reconcile unionBy
  rw [uniqBy_append, uniqBy_of_nodup depKey U [] hU, uniqBy_of_nodup depKey R _ hR]
  have hUfull : U.filter (fun x => decide (depKey x ∉ ([] : List String))) = U := by
    apply List.filter_eq_self.mpr
    intro a _
    simp
  rw [hUfull]
  refine congrArg (U ++ ·) (List.filter_congr ?_)
  intro r _
  simp only [supersededBy, List.append_nil]
  by_cases h : depKey r ∈ List.map depKey U
  · have hany : U.any (fun u => depKey u == depKey r) = true := by
      rw [List.any_eq_true]
      obtain ⟨u, hu, he⟩ := List.mem_map.mp h
      exact ⟨u, hu, beq_iff_eq.mpr he⟩
    simp [h, hany]
  · have hany : U.any (fun u => depKey u == depKey r) = false := by
      rw [List.any_eq_false]
      intro u hu
      simp only [beq_iff_eq]
      intro he
      exact h (he ▸ List.mem_map_of_mem depKey hu)
    simp [h, hany]

/-- The uniq-by-key pass always emits keys that are pairwise distinct and
absent from `seen`. -/
theorem uniqBy_keys_nodup {α κ : Type} [DecidableEq κ] (key : α → κ) :
    ∀ (l : List α) (s : List κ),
    ((uniqBy key l s).map key).Nodup ∧ ∀ x ∈ uniqBy key l s, key x ∉ s := by
  intro l
  induction l with
  | nil => intro s; exact ⟨List.nodup_nil, by intro x hx; cases hx⟩
  | cons x xs ih =>
    intro s
    simp only [uniqBy]
    by_cases hx : key x ∈ s
    · rw [if_pos hx]
      exact ih s
    · rw [if_neg hx]
      obtain ⟨ihnd, ihseen⟩ := ih (key x :: s)
      constructor
      · simp only [List.map_cons, List.nodup_cons]
        refine ⟨?_, ihnd⟩
        intro hmem
        obtain ⟨y, hy, he⟩ := List.mem_map.mp hmem
        exact ihseen y hy (he ▸ List.mem_cons_self (key x) s)
      · intro y hy
        rcases List.mem_cons.mp hy with h | h
        · exact h ▸ hx
        · intro hmem
          exact ihseen y h (List.mem_cons_of_mem (key x) hmem)

/-- Filtering a nodup-keyed list by the key of one of its members yields
exactly that member. -/
theorem filter_key_of_nodup {α κ : Type} [DecidableEq κ] [BEq κ] [LawfulBEq κ]
    (f : α → κ) :
    ∀ (l : List α) (a : α), (l.map f).Nodup → a ∈ l →
    l.filter (fun x => f x == f a) = [a] := by
  intro l
  induction l with
  | nil => intro a _ ha; cases ha
  | cons x xs ih =>
    intro a hnd ha
    simp only [List.map_cons, List.nodup_cons] at hnd
    obtain ⟨hx_notin, hnd_xs⟩ := hnd
    rcases List.mem_cons.mp ha with h | h
    · subst h
      simp only [List.filter_cons, beq_self_eq_true, if_pos]
      refine congrArg (a :: ·) (List.filter_eq_nil_iff.mpr ?_)
      intro y hy
      simp only [beq_iff_eq]
      intro he
      exact hx_notin (he ▸ List.mem_map_of_mem f hy)
    · have hne : (f x == f a) = false := by
        rw [beq_eq_false_iff_ne]
        intro he
        exact hx_notin (he ▸ List.mem_map_of_mem f h)
      simp only [List.filter_cons, hne]
      simpa using ih a hnd_xs h

/-! ## Claim theorems for the version reconciler -/

/-- C1: for well-formed ReleaseSets U and R and any identity present in both,
`reconcile U R` contains exactly one entry with that identity, and it is the
entry of U (hence at U's version, not R's). -/
theorem reconcile_shared_identity_once (U R : List Dependency)
    (hU : WellFormedRS U) (hR : WellFormedRS R) (u : Dependency)
    (hu : u ∈ U) (hshared : ∃ r ∈ R, depKey r = depKey u) :
    (reconcile U R).filter (fun x => depKey x == depKey u) = [u] := by
  rw [reconcile_eq U R hU hR, List.filter_append]
  rw [filter_key_of_nodup depKey U u hU hu]
  have h2 : (R.filter (fun r => !(supersededBy U r))).filter
      (fun x => depKey x == depKey u) = [] := by
    apply List.filter_eq_nil_iff.mpr
    intro r hr
    obtain ⟨hrR, hns⟩ := List.mem_filter.mp hr
    simp only [beq_iff_eq]
    intro he
    have hsup : supersededBy U r = true := by
      rw [supersededBy, List.any_eq_true]
      exact ⟨u, hu, beq_iff_eq.mpr he.symm⟩
    rw [hsup] at hns
    cases hns
  rw [h2, List.append_nil]

/-- C2: every entry of U appears in `reconcile U R`, and every entry of R
whose identity does not appear in U is included unchanged, at its R version. -/
theorem reconcile_preserves_entries (U R : List Dependency)
    (hU : WellFormedRS U) (hR : WellFormedRS R) :
    (∀ u ∈ U, u ∈ reconcile U R) ∧
    (∀ r ∈ R, (∀ u ∈ U, depKey u ≠ depKey r) → r ∈ reconcile U R) := by
  rw [reconcile_eq U R hU hR]
  constructor
  · intro u hu
    exact List.mem_append_left _ hu
  · intro r hr hno
    refine List.mem_append_right _ (List.mem_filter.mpr ⟨hr, ?_⟩)
    have hsup : supersededBy U r = false := by
      rw [supersededBy, List.any_eq_false]
      intro u hu
      simp only [beq_iff_eq]
      exact hno u hu
    rw [hsup]
    rfl

/-- C3: with `updated` empty the reconciler returns the reference set exactly;
in particular both inputs empty give the empty result. -/
theorem reconcile_empty_updated (R : List Dependency) (hR : WellFormedRS R) :
    reconcile [] R = R ∧ reconcile [] ([] : List Dependency) = [] := by
  constructor
  · rw [reconcile_eq [] R (by simp [WellFormedRS]) hR]
    simp [supersededBy]
  · rfl

/-- C4: the reconciler lists the entries of `updated` first, in input order,
followed by the non-superseded `reference` entries, in input order, and is
deterministic: equal inputs give equal outputs. -/
theorem reconcile_order_deterministic (U R : List Dependency)
    (hU : WellFormedRS U) (hR : WellFormedRS R) :
    reconcile U R = U ++ R.filter (fun r => !(supersededBy U r)) ∧
    ∀ U' R', U' = U → R' = R → reconcile U' R' = reconcile U R := by
  refine ⟨reconcile_eq U R hU hR, ?_⟩
  intro U' R' hU' hR'
  rw [hU', hR']

/-- C5: the output length is at most |U| + |R|, with equality exactly when
no identity occurs in both sets. -/
theorem reconcile_length_bound (U R : List Dependency)
    (hU : WellFormedRS U) (hR : WellFormedRS R) :
    (reconcile U R).length ≤ U.length + R.length ∧
    ((reconcile U R).length = U.length + R.length ↔
      ∀ u ∈ U, ∀ r ∈ R, depKey u ≠ depKey r) := by
  rw [reconcile_eq U R hU hR]
  simp only [List.length_append]
  constructor
  · exact Nat.add_le_add_left (List.length_filter_le _ R) U.length
  · constructor
    · intro h
      have hlen : (R.filter (fun r => !(supersededBy U r))).length = R.length :=
        Nat.add_left_cancel h
      have heq : R.filter (fun r => !(supersededBy U r)) = R :=
        (List.filter_sublist R).eq_of_length hlen
      intro u hu r hr he
      have hp : (!(supersededBy U r)) = true := List.filter_eq_self.mp heq r hr
      have hsup : supersededBy U r = true := by
        rw [supersededBy, List.any_eq_true]
        exact ⟨u, hu, beq_iff_eq.mpr he⟩
      rw [hsup] at hp
      cases hp
    · intro hno
      have heq : R.filter (fun r => !(supersededBy U r)) = R := by
        apply List.filter_eq_self.mpr
        intro r hr
        have hsup : supersededBy U r = false := by
          rw [supersededBy, List.any_eq_false]
          intro u hu
          simp only [beq_iff_eq]
          exact hno u hu r hr
        rw [hsup]
        rfl
      rw [heq]

/-- C6: the reconciler preserves the ReleaseSet invariant: on inputs with
unique identities, the output has unique identities. -/
theorem reconcile_wellformed (U R : List Dependency)
    (hU : WellFormedRS U) (hR : WellFormedRS R) :
    WellFormedRS (reconcile U R) := by
  unfold WellFormedRS reconcile unionBy
  exact (uniqBy_keys_nodup depKey (U ++ R) []).1

/-- The reconcile step in the fallible-call convention of the surrounding
command code: the expression at publication.js:208-209 contains no `throw`
and no fallible call, so its lift into `Except` is the `ok` of the pure
union. -/
def reconcileRun (updated reference : List Dependency) :
    Except String (List Dependency) :=
  Except.ok (unionBy depKey updated reference)

/-- C7: on well-formed inputs the reconciler is a total pure function whose
error branch is unreachable: it always produces the reconciled list and
never signals failure. -/
theorem reconcile_total_no_failure (U R : List Dependency)
    (hU : WellFormedRS U) (hR : WellFormedRS R) :
    reconcileRun U R = Except.ok (reconcile U R) ∧
    ∀ e, reconcileRun U R ≠ Except.error e := by
  refine ⟨rfl, ?_⟩
  intro e h
  exact Except.noConfusion h

/-! ## Concrete inputs for the witnesses (spec section 8, examples 6-8) -/

/-- MiniAppOne at version 1.0.0. -/
def sampleA1 : Dependency := ⟨none, "MiniAppOne", some "1.0.0"⟩

/-- MiniAppOne at version 2.0.0. -/
def sampleA2 : Dependency := ⟨none, "MiniAppOne", some "2.0.0"⟩

/-- MiniAppTwo at version 1.0.0. -/
def sampleB1 : Dependency := ⟨none, "MiniAppTwo", some "1.0.0"⟩

/-- Witness for C1 at the spec's worked example. -/
theorem reconcile_shared_identity_once_witness :
    (reconcile [sampleA2] [sampleA1, sampleB1]).filter
      (fun x => depKey x == depKey sampleA2) = [sampleA2] :=
  reconcile_shared_identity_once [sampleA2] [sampleA1, sampleB1]
    (by decide) (by decide) sampleA2 (by decide)
    ⟨sampleA1, by decide, by decide⟩

/-- Witness for C2: the updated entry and the non-superseded reference entry
both appear in the result. -/
theorem reconcile_preserves_entries_witness :
    sampleA2 ∈ reconcile [sampleA2] [sampleA1, sampleB1] ∧
    sampleB1 ∈ reconcile [sampleA2] [sampleA1, sampleB1] :=
  ⟨(reconcile_preserves_entries [sampleA2] [sampleA1, sampleB1]
      (by decide) (by decide)).1 sampleA2 (by decide),
   (reconcile_preserves_entries [sampleA2] [sampleA1, sampleB1]
      (by decide) (by decide)).2 sampleB1 (by decide) (by decide)⟩

/-- Witness for C3 at the spec's example 7. -/
theorem reconcile_empty_updated_witness :
    reconcile [] [sampleA1] = [sampleA1] :=
  (reconcile_empty_updated [sampleA1] (by decide)).1

/-- Witness for C4 at the spec's worked example. -/
theorem reconcile_order_deterministic_witness :
    reconcile [sampleA2] [sampleA1, sampleB1] =
      [sampleA2] ++ [sampleA1, sampleB1].filter
        (fun r => !(supersededBy [sampleA2] r)) :=
  (reconcile_order_deterministic [sampleA2] [sampleA1, sampleB1]
    (by decide) (by decide)).1

/-- Witness for C5 at the spec's worked example. -/
theorem reconcile_length_bound_witness :
    (reconcile [sampleA2] [sampleA1, sampleB1]).length ≤
      ([sampleA2] : List Dependency).length +
      ([sampleA1, sampleB1] : List Dependency).length :=
  (reconcile_length_bound [sampleA2] [sampleA1, sampleB1]
    (by decide) (by decide)).1

/-- Witness for C6 at the spec's worked example. -/
theorem reconcile_wellformed_witness :
    WellFormedRS (reconcile [sampleA2] [sampleA1, sampleB1]) :=
  reconcile_wellformed [sampleA2] [sampleA1, sampleB1] (by decide) (by decide)

/-- Witness for C7 at the spec's worked example. -/
theorem reconcile_total_no_failure_witness :
    reconcileRun [sampleA2] [sampleA1, sampleB1] =
      Except.ok (reconcile [sampleA2] [sampleA1, sampleB1]) :=
  (reconcile_total_no_failure [sampleA2] [sampleA1, sampleB1]
    (by decide) (by decide)).1

/-! ## Container-generation command glue

`runLocalContainerGen` and `runCauldronContainerGen` wrap their whole body in
`try { ... } catch (e) { log.error(...); throw e }`. Collaborator calls
(`yarn add`, the cauldron getters, `generateContainer`) are modelled by their
outcomes as `Except` values; the retry question is modelled by giving the
generator as a sequence of per-invocation outcomes, the source consulting
only invocation 0. -/

/-- Errors surfaced by this command layer: a collaborator failure carried
verbatim, or the layer's own duplicate-native-dependency error
(publication.js:106), which carries the offending identities. -/
inductive Err where
  | collaborator (msg : String)
  | duplicateNative (ids : List String)
deriving DecidableEq, Repr

/-- The `catch (e) { log.error(...); throw e }` wrapper of both generator
commands (publication.js:121-124 and 159-162): logging aside, the caught
error is re-thrown as is. -/
def tryRethrow {α : Type} (r : Except Err α) : Except Err α :=
  match r with
  | .error e => .error e
  | .ok a => .ok a

/-- What one iteration of the miniapp loop of `runLocalContainerGen`
produces: the miniapp's parsed identity (from the `package.json` written by
`yarn add`) and the native dependencies found under its `node_modules`. -/
structure MiniAppFetch where
  dep : Dependency
  nativeDeps : List Dependency
deriving DecidableEq, Repr

/-- The sequential miniapp loop: the first failing `yarn add` /
`findNativeDependencies` aborts the whole command (the loop body awaits each
call, and the enclosing try re-throws). -/
def fetchAll : List (Except Err MiniAppFetch) → Except Err (List MiniAppFetch)
  | [] => .ok []
  | f :: fs =>
    match f with
    | .error e => .error e
    | .ok m =>
      match fetchAll fs with
      | .error e => .error e
      | .ok ms => .ok (m :: ms)

/-- JavaScript `Set.add` on dependency strings: insertion order is kept and
an element equal (as a rendered string) to a present one is not re-added.
The set of strings is modelled as the list of the dependencies whose
rendered strings it holds. -/
def insertDepSet (s : List Dependency) (d : Dependency) : List Dependency :=
  if s.any (fun x => x.toStr == d.toStr) then s else s ++ [d]

/-- The accumulation of `nativeDependencies` across the miniapp loop
(publication.js:86-94): for each miniapp, drop the miniapp itself from its
native dependencies (matched on scope and name), then add the rest to the
set. -/
def collectNativeDeps : List MiniAppFetch → List Dependency → List Dependency
  | [], acc => acc
  | m :: ms, acc =>
    let kept := m.nativeDeps.filter
      (fun d => !(d.scope == m.dep.scope && d.name == m.dep.name))
    collectNativeDeps ms (kept.foldl insertDepSet acc)

/-- The duplicate detection of publication.js:103-104:
`_(ws).groupBy().pickBy(x => x.length > 1).keys()` — the distinct strings,
in first-occurrence order, that occur more than once. -/
def duplicateNativeDependencies (l : List String) : List String :=
  (uniqBy (fun s => s) l []).filter (fun k => decide (1 < l.count k))

/-- `runLocalContainerGen` (publication.js:48-125): process the miniapp
packages, check version uniqueness of the collected native dependencies,
then call `generateContainer` (first invocation of `gen`); the surrounding
try/catch re-throws any error. -/
def runLocalContainerGen (fetches : List (Except Err MiniAppFetch))
    (gen : Nat → Except Err Unit) : Except Err Unit :=
  tryRethrow (
    match fetchAll fetches with
    | .error e => .error e
    | .ok infos =>
      let nativeDependenciesArray := collectNativeDeps infos []
      let nativeDependenciesWithoutVersion :=
        nativeDependenciesArray.map (fun d => d.withoutVersion.toStr)
      let duplicates :=
        duplicateNativeDependencies nativeDependenciesWithoutVersion
      if 0 < duplicates.length then .error (.duplicateNative duplicates)
      else gen 0)

/-- An uninterpreted cauldron configuration blob, as returned by
`cauldron.getConfig`. -/
def CauldronConfig : Type := List (String × String)

/-- `runCauldronContainerGen` (publication.js:128-163): fetch the plugins and
miniapps from the cauldron, fetch the generator config only when publishing,
then call `generateContainer` (first invocation of `gen`); the surrounding
try/catch re-throws any error. -/
def runCauldronContainerGen (getNativeDependencies : Except Err (List Dependency))
    (getContainerMiniApps : Except Err (List Dependency))
    (getConfig : Except Err CauldronConfig)
    (publish : Bool)
    (gen : Nat → Except Err Unit) : Except Err Unit :=
  tryRethrow (
    match getNativeDependencies with
    | .error e => .error e
    | .ok _plugins =>
      match getContainerMiniApps with
      | .error e => .error e
      | .ok _miniapps =>
        match (if publish then getConfig.map some else .ok none) with
        | .error e => .error e
        | .ok _config => gen 0)

theorem tryRethrow_id {α : Type} (r : Except Err α) : tryRethrow r = r := by
  cases r <;> rfl

/-- C8: every failure of a collaborator call inside `runLocalContainerGen`
or `runCauldronContainerGen` is re-raised to the caller as exactly the same
error value: each collaborator error propagates unchanged, an error output
always equals some collaborator's error (or, for the local command, its own
duplicate-dependency error), and the generator is consulted for one
invocation only, so there is no retry. -/
theorem containergen_error_propagation :
    (∀ (mas : Except Err (List Dependency)) (cfg : Except Err CauldronConfig)
        (publish : Bool) (gen : Nat → Except Err Unit) (e : Err),
      runCauldronContainerGen (.error e) mas cfg publish gen = .error e) ∧
    (∀ (plugins : List Dependency) (cfg : Except Err CauldronConfig)
        (publish : Bool) (gen : Nat → Except Err Unit) (e : Err),
      runCauldronContainerGen (.ok plugins) (.error e) cfg publish gen = .error e) ∧
    (∀ (plugins mas : List Dependency) (gen : Nat → Except Err Unit) (e : Err),
      runCauldronContainerGen (.ok plugins) (.ok mas) (.error e) true gen = .error e) ∧
    (∀ (plugins mas : List Dependency) (c : CauldronConfig) (publish : Bool)
        (gen : Nat → Except Err Unit) (e : Err), gen 0 = .error e →
      runCauldronContainerGen (.ok plugins) (.ok mas) (.ok c) publish gen = .error e) ∧
    (∀ (deps mas : Except Err (List Dependency)) (cfg : Except Err CauldronConfig)
        (publish : Bool) (gen : Nat → Except Err Unit) (e : Err),
      runCauldronContainerGen deps mas cfg publish gen = .error e →
      deps = .error e ∨ mas = .error e ∨ (publish = true ∧ cfg = .error e) ∨
        gen 0 = .error e) ∧
    (∀ (deps mas : Except Err (List Dependency)) (cfg : Except Err CauldronConfig)
        (publish : Bool) (gen gen' : Nat → Except Err Unit), gen 0 = gen' 0 →
      runCauldronContainerGen deps mas cfg publish gen =
        runCauldronContainerGen deps mas cfg publish gen') ∧
    (∀ (fetches : List (Except Err MiniAppFetch)) (gen : Nat → Except Err Unit)
        (e : Err), fetchAll fetches = .error e →
      runLocalContainerGen fetches gen = .error e) ∧
    (∀ (fetches : List (Except Err MiniAppFetch)) (infos : List MiniAppFetch)
        (gen : Nat → Except Err Unit) (e : Err), fetchAll fetches = .ok infos →
      duplicateNativeDependencies
        ((collectNativeDeps infos []).map (fun d => d.withoutVersion.toStr)) = [] →
      gen 0 = .error e →
      runLocalContainerGen fetches gen = .error e) ∧
    (∀ (fetches : List (Except Err MiniAppFetch)) (gen : Nat → Except Err Unit)
        (e : Err), runLocalContainerGen fetches gen = .error e →
      fetchAll fetches = .error e ∨ (∃ ids, e = .duplicateNative ids) ∨
        gen 0 = .error e) ∧
    (∀ (fetches : List (Except Err MiniAppFetch))
        (gen gen' : Nat → Except Err Unit), gen 0 = gen' 0 →
      runLocalContainerGen fetches gen = runLocalContainerGen fetches gen') := by
  refine ⟨?_, ?_, ?_, ?_, ?_, ?_, ?_, ?_, ?_, ?_⟩
  · intro mas cfg publish gen e
    rfl
  · intro plugins cfg publish gen e
    rfl
  · intro plugins mas gen e
    rfl
  · intro plugins mas c publish gen e hg
    cases publish <;> simp [runCauldronContainerGen, Except.map, hg, tryRethrow]
  · intro deps mas cfg publish gen e h
    cases deps with
    | error d =>
      simp [runCauldronContainerGen, tryRethrow] at h
      exact Or.inl (by rw [h])
    | ok plugins =>
      cases mas with
      | error d =>
        simp [runCauldronContainerGen, tryRethrow] at h
        exact Or.inr (Or.inl (by rw [h]))
      | ok mas' =>
        cases publish with
        | false =>
          simp [runCauldronContainerGen, tryRethrow_id] at h
          exact Or.inr (Or.inr (Or.inr h))
        | true =>
          cases cfg with
          | error d =>
            simp [runCauldronContainerGen, Except.map, tryRethrow] at h
            exact Or.inr (Or.inr (Or.inl ⟨rfl, by rw [h]⟩))
          | ok c =>
            simp [runCauldronContainerGen, Except.map, tryRethrow_id] at h
            exact Or.inr (Or.inr (Or.inr h))
  · intro deps mas cfg publish gen gen' h
    unfold runCauldronContainerGen
    cases deps <;> cases mas <;> cases publish <;> cases cfg <;>
      simp [Except.map, h]
  · intro fetches gen e h
    unfold runLocalContainerGen
    rw [h]
    rfl
  · intro fetches infos gen e hf hdup hg
    unfold runLocalContainerGen
    rw [hf]
    simp [hdup, hg, tryRethrow]
  · intro fetches gen e h
    unfold runLocalContainerGen at h
    cases hf : fetchAll fetches with
    | error d =>
      rw [hf] at h
      simp [tryRethrow] at h
      exact Or.inl (by rw [h])
    | ok infos =>
      rw [hf] at h
      by_cases hdup : 0 < (duplicateNativeDependencies
        ((collectNativeDeps infos []).map (fun d => d.withoutVersion.toStr))).length
      · simp only [if_pos hdup, tryRethrow] at h
        have he : Err.duplicateNative (duplicateNativeDependencies
            ((collectNativeDeps infos []).map (fun d => d.withoutVersion.toStr))) = e :=
          Except.error.inj h
        exact Or.inr (Or.inl ⟨_, he.symm⟩)
      · simp only [if_neg hdup, tryRethrow_id] at h
        exact Or.inr (Or.inr h)
  · intro fetches gen gen' h
    unfold runLocalContainerGen
    cases hf : fetchAll fetches with
    | error d => rfl
    | ok infos => simp [h]

/-- Witness for C8: a generation failure comes back to the caller verbatim. -/
theorem containergen_error_propagation_witness :
    runCauldronContainerGen (.ok []) (.ok []) (.ok []) true
      (fun _ => .error (.collaborator "generation failed")) =
      .error (.collaborator "generation failed") :=
  containergen_error_propagation.2.2.2.1 [] [] [] true
    (fun _ => .error (.collaborator "generation failed"))
    (.collaborator "generation failed") rfl

/-- The reference-set selection of `performCodePushOtaUpdate`
(publication.js:192-206): `codePushMiniapps.pop()` yields the last entry of
the CodePush release history, or `undefined` when the history is empty,
which lodash `_.map` turns into `[]`; when the parsed list is empty the
container MiniApps are used instead. -/
def selectReferenceMiniApps (parse : String → Dependency)
    (codePushMiniapps : List (List String))
    (containerMiniApps : List Dependency) : List Dependency :=
  let latestCodePushedMiniApps := (codePushMiniapps.getLast?.getD []).map parse
  if latestCodePushedMiniApps.length == 0 then containerMiniApps
  else latestCodePushedMiniApps

/-- C9: the reference set depends only on the last element of the release
history; an empty history, or a last entry that is itself empty, falls back
to the container MiniApps, and a non-empty last entry is used alone (never a
union of several past releases). -/
theorem codepush_reference_selection :
    (∀ (parse : String → Dependency) (h₁ h₂ : List (List String))
        (c : List Dependency), h₁.getLast? = h₂.getLast? →
      selectReferenceMiniApps parse h₁ c = selectReferenceMiniApps parse h₂ c) ∧
    (∀ (parse : String → Dependency) (c : List Dependency),
      selectReferenceMiniApps parse [] c = c) ∧
    (∀ (parse : String → Dependency) (h : List (List String))
        (c : List Dependency), h.getLast? = some [] →
      selectReferenceMiniApps parse h c = c) ∧
    (∀ (parse : String → Dependency) (h : List (List String))
        (c : List Dependency) (l : List String), h.getLast? = some l → l ≠ [] →
      selectReferenceMiniApps parse h c = l.map parse) := by
  refine ⟨?_, ?_, ?_, ?_⟩
  · intro parse h₁ h₂ c hl
    unfold selectReferenceMiniApps
    rw [hl]
  · intro parse c
    rfl
  · intro parse h c hl
    unfold selectReferenceMiniApps
    rw [hl]
    rfl
  · intro parse h c l hl hne
    unfold selectReferenceMiniApps
    rw [hl]
    have hlen : ((l.map parse).length == 0) = false := by
      simp [List.length_eq_zero, hne]
    simp only [Option.getD_some, hlen, Bool.false_eq_true, if_false]

/-- Witness for C9: a singleton history entry is used as the reference set. -/
theorem codepush_reference_selection_witness :
    selectReferenceMiniApps (fun s => ⟨none, s, none⟩)
      [["MiniAppOne@1.0.0"]] [sampleB1] =
      [⟨none, "MiniAppOne@1.0.0", none⟩] :=
  codepush_reference_selection.2.2.2 (fun s => ⟨none, s, none⟩)
    [["MiniAppOne@1.0.0"]] [sampleB1] ["MiniAppOne@1.0.0"] rfl (by decide)

/-- Membership in the identity uniq pass: exactly the elements of the list
that are not in `seen`. -/
theorem mem_uniqBy_id :
    ∀ (l seen : List String) (a : String),
    a ∈ uniqBy (fun k => k) l seen ↔ a ∈ l ∧ a ∉ seen := by
  intro l
  induction l with
  | nil => intro seen a; simp [uniqBy]
  | cons x xs ih =>
    intro seen a
    simp only [uniqBy]
    by_cases hx : x ∈ seen
    · rw [if_pos hx, ih]
      simp only [List.mem_cons]
      constructor
      · rintro ⟨ha, hs⟩
        exact ⟨Or.inr ha, hs⟩
      · rintro ⟨ha | ha, hs⟩
        · subst ha; exact absurd hx hs
        · exact ⟨ha, hs⟩
    · rw [if_neg hx]
      simp only [List.mem_cons, ih]
      constructor
      · rintro (ha | ⟨ha, hs⟩)
        · subst ha; exact ⟨Or.inl rfl, hx⟩
        · exact ⟨Or.inr ha, fun hm => hs (Or.inr hm)⟩
      · rintro ⟨ha | ha, hs⟩
        · exact Or.inl ha
        · by_cases hax : a = x
          · exact Or.inl hax
          · refine Or.inr ⟨ha, ?_⟩
            rintro (hh | hh)
            · exact hax hh
            · exact hs hh

/-- Two distinct elements mapping to the same key contribute at least two
occurrences of that key to the mapped list. -/
theorem two_le_count_map {α : Type} [DecidableEq α] (f : α → String) :
    ∀ (l : List α) (a b : α), a ∈ l → b ∈ l → a ≠ b → f a = f b →
    2 ≤ (l.map f).count (f a) := by
  intro l
  induction l with
  | nil => intro a b ha; cases ha
  | cons x xs ih =>
    intro a b ha hb hne hf
    rw [List.map_cons, List.count_cons]
    rcases List.mem_cons.mp ha with hax | hax
    · subst hax
      have hbxs : b ∈ xs := by
        rcases List.mem_cons.mp hb with h | h
        · exact absurd h.symm hne
        · exact h
      have h1 : 0 < (xs.map f).count (f a) := by
        rw [List.count_pos_iff]
        exact hf ▸ List.mem_map_of_mem f hbxs
      have h2 : (if (f a == f a) = true then 1 else 0) = 1 := by simp
      omega
    · rcases List.mem_cons.mp hb with hbx | hbx
      · subst hbx
        have h1 : 0 < (xs.map f).count (f a) := by
          rw [List.count_pos_iff]
          exact List.mem_map_of_mem f hax
        have h2 : (if (f b == f a) = true then 1 else 0) = 1 := by simp [hf]
        omega
      · have hc := ih a b hax hbx hne hf
        by_cases hfx : (f x == f a) = true
        · rw [if_pos hfx]; omega
        · rw [if_neg hfx]; omega

/-- C10: when the collected native dependencies contain one identity at two
different rendered versions, `runLocalContainerGen` raises its
duplicate-dependency error, which names that identity, and the result does
not depend on the container generator at all; when the collected identities
are pairwise distinct, the check passes and the command reduces to the sole
generator invocation. -/
theorem localgen_duplicate_native_check :
    (∀ (fetches : List (Except Err MiniAppFetch)) (infos : List MiniAppFetch)
        (gen : Nat → Except Err Unit) (d₁ d₂ : Dependency),
      fetchAll fetches = .ok infos →
      d₁ ∈ collectNativeDeps infos [] → d₂ ∈ collectNativeDeps infos [] →
      d₁.withoutVersion.toStr = d₂.withoutVersion.toStr →
      d₁.toStr ≠ d₂.toStr →
      runLocalContainerGen fetches gen =
        .error (.duplicateNative (duplicateNativeDependencies
          ((collectNativeDeps infos []).map (fun d => d.withoutVersion.toStr)))) ∧
      d₁.withoutVersion.toStr ∈ duplicateNativeDependencies
        ((collectNativeDeps infos []).map (fun d => d.withoutVersion.toStr)) ∧
      ∀ gen', runLocalContainerGen fetches gen' = runLocalContainerGen fetches gen) ∧
    (∀ (fetches : List (Except Err MiniAppFetch)) (infos : List MiniAppFetch)
        (gen : Nat → Except Err Unit),
      fetchAll fetches = .ok infos →
      ((collectNativeDeps infos []).map (fun d => d.withoutVersion.toStr)).Nodup →
      runLocalContainerGen fetches gen = gen 0) := by
  constructor
  · intro fetches infos gen d₁ d₂ hf h1 h2 hkey hver
    have hne : d₁ ≠ d₂ := fun h => hver (congrArg Dependency.toStr h)
    have hcount : 2 ≤ ((collectNativeDeps infos []).map
        (fun d => d.withoutVersion.toStr)).count (d₁.withoutVersion.toStr) :=
      two_le_count_map (fun d => d.withoutVersion.toStr)
        (collectNativeDeps infos []) d₁ d₂ h1 h2 hne hkey
    have hmemws : d₁.withoutVersion.toStr ∈ (collectNativeDeps infos []).map
        (fun d => d.withoutVersion.toStr) :=
      List.mem_map_of_mem _ h1
    have hdupmem : d₁.withoutVersion.toStr ∈ duplicateNativeDependencies
        ((collectNativeDeps infos []).map (fun d => d.withoutVersion.toStr)) := by
      unfold duplicateNativeDependencies
      refine List.mem_filter.mpr ⟨?_, ?_⟩
      · exact (mem_uniqBy_id _ [] _).mpr ⟨hmemws, by simp⟩
      · exact decide_eq_true hcount
    have hlen : 0 < (duplicateNativeDependencies
        ((collectNativeDeps infos []).map (fun d => d.withoutVersion.toStr))).length :=
      List.length_pos_of_mem hdupmem
    refine ⟨?_, hdupmem, ?_⟩
    · simp only [runLocalContainerGen, hf]
      rw [if_pos hlen]
      rfl
    · intro gen'
      simp only [runLocalContainerGen, hf]
      rw [if_pos hlen, if_pos hlen]
  · intro fetches infos gen hf hnd
    have hdup : duplicateNativeDependencies
        ((collectNativeDeps infos []).map (fun d => d.withoutVersion.toStr)) = [] := by
      unfold duplicateNativeDependencies
      apply List.filter_eq_nil_iff.mpr
      intro k hk
      have hcount : ((collectNativeDeps infos []).map
          (fun d => d.withoutVersion.toStr)).count k ≤ 1 :=
        List.nodup_iff_count_le_one.mp hnd k
      simp only [decide_eq_true_eq]
      omega
    simp only [runLocalContainerGen, hf, hdup]
    simp [tryRethrow_id]

/-- A shared native module at version 1.0.0. -/
def bridgeV1 : Dependency := ⟨none, "react-native-electrode-bridge", some "1.0.0"⟩

/-- The same native module at version 2.0.0. -/
def bridgeV2 : Dependency := ⟨none, "react-native-electrode-bridge", some "2.0.0"⟩

/-- A miniapp whose node_modules holds the bridge at 1.0.0. -/
def fetchOne : MiniAppFetch := ⟨⟨none, "MiniAppOne", some "1.0.0"⟩, [bridgeV1]⟩

/-- A miniapp whose node_modules holds the bridge at 2.0.0. -/
def fetchTwo : MiniAppFetch := ⟨⟨none, "MiniAppTwo", some "1.0.0"⟩, [bridgeV2]⟩

/-- Witness for C10: two miniapps using the bridge at different versions
trigger the duplicate-dependency error. -/
theorem localgen_duplicate_native_check_witness :
    runLocalContainerGen [Except.ok fetchOne, Except.ok fetchTwo]
      (fun _ => .ok ()) =
      .error (.duplicateNative (duplicateNativeDependencies
        ((collectNativeDeps [fetchOne, fetchTwo] []).map
          (fun d => d.withoutVersion.toStr)))) :=
  (localgen_duplicate_native_check.1 [Except.ok fetchOne, Except.ok fetchTwo]
    [fetchOne, fetchTwo] (fun _ => .ok ()) bridgeV1 bridgeV2 rfl
    (by decide) (by decide) rfl (by decide)).1
